import Mathlib

/-!
# Verification of the capacity-constrained registration and waitlist subsystem

Shallow embedding of the registration/waitlist core of the terpspark backend
(`app/services/registration_service.py`, `app/repositories/registration_repository.py`,
`app/repositories/waitlist_repository.py`, `app/repositories/event_repository.py`,
`app/schemas/registration.py`).

The embedding is per event: every core operation in the source touches exactly one
event, and every verified property is quantified per event, so the state is one
event's row (counters, status, date) together with the registrations and waitlist
entries whose `event_id` equals that event.  The `users` table is read-only for the
core and is passed as an environment list.  Python `int` columns are modelled as
`Int`; nullable date columns as `Option Int` (day ordinal).  External side effects
(email, audit records, QR payloads) have no effect on the modelled state and are
not represented; nondeterministic inputs (ticket codes, UUIDs, clock) are passed
as explicit operation parameters.
-/

namespace Terpspark

/-- Modelled from the spec: `app/models/event.py` is not part of the provided
sources; spec section 3 lists the event statuses `draft|pending|published|cancelled`
(the repositories reference `PENDING`, `PUBLISHED` and `CANCELLED`). -/
inductive EventStatus where
  | draft
  | pending
  | published
  | cancelled
deriving DecidableEq, Repr

/-- Modelled from the spec: `app/models/registration.py` is not part of the provided
sources; spec section 3 gives registration status `confirmed|cancelled`, which is
exactly the set the service and repositories use. -/
inductive RegStatus where
  | confirmed
  | cancelled
deriving DecidableEq, Repr

/-- `app/models/waitlist.py`, `NotificationPreference`. -/
inductive NotificationPreference where
  | email
  | sms
  | both
deriving DecidableEq, Repr

/-- A guest as validated by the service: `{name, email}`. -/
structure Guest where
  name : String
  email : String
deriving DecidableEq, Repr

/-- A registration row (fields read or written by the modelled operations;
`qr_code`, `check_in_status`, timestamps and `reminder_sent` are never read by the
registration/cancellation/waitlist flows and are omitted). -/
structure Reg where
  id : Nat
  userId : Nat
  status : RegStatus
  ticketCode : String
  guests : List Guest
  sessions : List String
  cancelledAt : Option Int
deriving DecidableEq, Repr

/-- A waitlist row (`joined_at` is never read by the modelled flows). -/
structure WEntry where
  id : Nat
  userId : Nat
  position : Int
  pref : NotificationPreference
deriving DecidableEq, Repr

/-- A user row as read by the core (`name`/`role` feed only audit and email text). -/
structure User where
  id : Nat
  email : String
deriving DecidableEq, Repr

/-- One event's slice of the store: the event row's counters plus the registration
and waitlist rows carrying its `event_id` (in insertion order, as the database
returns them). -/
structure EventState where
  capacity : Int
  registered_count : Int
  waitlist_count : Int
  status : EventStatus
  date : Option Int
  regs : List Reg
  waitlist : List WEntry
deriving DecidableEq, Repr

/-- `EventStatus.value` strings. -/
def statusValue : EventStatus → String
  | .draft => "draft"
  | .pending => "pending"
  | .published => "published"
  | .cancelled => "cancelled"

/-- Every `raise HTTPException` site of the modelled operations, one constructor
per site, with the dynamic parts of the message as payload. -/
inductive ApiErr where
  | eventNotPublished (statusValue : String)
  | pastEvent
  | alreadyRegistered
  | tooManyGuests
  | invalidGuestEmail (email : String)
  | duplicateGuestEmails
  | guestAlreadyPrimary (email : String)
  | guestAlreadyGuest (email : String)
  | eventFull
  | insufficientCapacity (remaining needed : Int)
  | registrationNotFound
  | notOwnRegistration
  | alreadyCancelled
  | eventNotPublishedJoin
  | alreadyOnWaitlist
  | eventNotFull (available : Int)
  | waitlistEntryNotFound
  | notOwnWaitlistEntry
deriving DecidableEq, Repr

/-- HTTP status code of each raise site. -/
def ApiErr.statusCode : ApiErr → Nat
  | .eventNotPublished _ => 400
  | .pastEvent => 400
  | .alreadyRegistered => 409
  | .tooManyGuests => 422
  | .invalidGuestEmail _ => 422
  | .duplicateGuestEmails => 422
  | .guestAlreadyPrimary _ => 409
  | .guestAlreadyGuest _ => 409
  | .eventFull => 409
  | .insufficientCapacity _ _ => 409
  | .registrationNotFound => 404
  | .notOwnRegistration => 403
  | .alreadyCancelled => 400
  | .eventNotPublishedJoin => 400
  | .alreadyOnWaitlist => 409
  | .eventNotFull _ => 400
  | .waitlistEntryNotFound => 404
  | .notOwnWaitlistEntry => 403

/-- `detail` string of each raise site (Python f-strings become concatenations). -/
def ApiErr.detail : ApiErr → String
  | .eventNotPublished v => "Event is not published. Current status: " ++ v
  | .pastEvent => "Cannot register for past events"
  | .alreadyRegistered => "You are already registered for this event"
  | .tooManyGuests => "Maximum 2 guests allowed per registration"
  | .invalidGuestEmail e =>
      "Guest email " ++ e ++ " must be a valid UMD email (@umd.edu or @terpmail.umd.edu)"
  | .duplicateGuestEmails => "Duplicate guest emails are not allowed"
  | .guestAlreadyPrimary e =>
      "Guest " ++ e ++ " is already registered for this event as a primary attendee"
  | .guestAlreadyGuest e =>
      "Guest " ++ e ++ " is already registered for this event as a guest of another attendee"
  | .eventFull => "Event is full. Please join the waitlist instead."
  | .insufficientCapacity r n =>
      "Insufficient capacity. Only " ++ toString r ++
        " spot(s) remaining, but you need " ++ toString n ++
        " (including guests). Please reduce guests or join waitlist."
  | .registrationNotFound => "Registration not found"
  | .notOwnRegistration => "You can only cancel your own registrations"
  | .alreadyCancelled => "Registration is already cancelled"
  | .eventNotPublishedJoin => "Event is not published"
  | .alreadyOnWaitlist => "You are already on the waitlist for this event"
  | .eventNotFull a =>
      "Event is not full. " ++ toString a ++ " spot(s) available. Please register instead."
  | .waitlistEntryNotFound => "Waitlist entry not found"
  | .notOwnWaitlistEntry => "You can only remove your own waitlist entries"

/-- The `headers` hint: only the event-full conflict carries `X-Suggestion`. -/
def ApiErr.suggestion : ApiErr → Option String
  | .eventFull => some "join-waitlist"
  | _ => none

/-- Python `str.lower()` (ASCII case folding, which is all the email policy uses);
defined on the character list so that it evaluates inside the kernel. -/
def strLower (s : String) : String := ⟨s.data.map Char.toLower⟩

/-- Python `str.endswith(suffix)`. -/
def strEndsWith (s suffix : String) : Bool := suffix.data.isSuffixOf s.data

/-- `RegistrationRepository.get_by_user_and_event`: first registration of the user
for this event with status CONFIRMED. -/
def getByUserAndEvent (regs : List Reg) (userId : Nat) : Option Reg :=
  regs.find? fun r => decide (r.userId = userId ∧ r.status = RegStatus.confirmed)

/-- `UserRepository.get_by_email`: lowercases the argument and compares with the
stored (already lowercased) email. -/
def getUserByEmail (users : List User) (email : String) : Option User :=
  users.find? fun u => decide (u.email = strLower email)

/-- `UserRepository.get_by_id`. -/
def getUserById (users : List User) (userId : Nat) : Option User :=
  users.find? fun u => decide (u.id = userId)

/-- `GuestInfo.validate_umd_email` (`app/schemas/registration.py`): the pydantic
validator run on every guest email at the API boundary; accepts only the
`@umd.edu` suffix. -/
def validateUmdEmailSchema (v : String) : Bool :=
  strEndsWith (strLower v) "@umd.edu"

/-- The service-layer guest domain check (`registration_service.py` line 80):
accepts `@umd.edu` and `@terpmail.umd.edu`. -/
def serviceGuestEmailOk (email : String) : Bool :=
  strEndsWith (strLower email) "@umd.edu" || strEndsWith (strLower email) "@terpmail.umd.edu"

/-- `event.date and event.date < date.today()`: a NULL date makes the whole
condition falsy, so the past-event check is skipped. -/
def isPastEvent (date : Option Int) (today : Int) : Bool :=
  match date with
  | some d => decide (d < today)
  | none => false

/-- First guest failing the service-layer domain check (the loop raises at the
first offender). -/
def firstBadDomain : List Guest → Option Guest
  | [] => none
  | g :: gs => if serviceGuestEmailOk g.email then firstBadDomain gs else some g

/-- Does a guest email belong to a user who already holds a CONFIRMED registration
(as primary) for this event? -/
def guestPrimaryConflict (users : List User) (regs : List Reg) (g : Guest) : Bool :=
  match getUserByEmail users g.email with
  | some u => (getByUserAndEvent regs u.id).isSome
  | none => false

/-- Does a guest email already appear in the guest list of a CONFIRMED
registration for this event? -/
def guestGuestConflict (regs : List Reg) (g : Guest) : Bool :=
  (regs.filter fun r => decide (r.status = RegStatus.confirmed)).any fun r =>
    (r.guests.map fun x => strLower x.email).contains (strLower g.email)

/-- The per-guest conflict loop: for each guest in order, the primary-attendee
check is raised before the guest-of-another-attendee check. -/
def firstGuestConflict (users : List User) (regs : List Reg) : List Guest → Option ApiErr
  | [] => none
  | g :: gs =>
    if guestPrimaryConflict users regs g then some (.guestAlreadyPrimary g.email)
    else if guestGuestConflict regs g then some (.guestAlreadyGuest g.email)
    else firstGuestConflict users regs gs

/-- Ticket-code collision check: on collision with an existing code, append a short
random disambiguator (the `uuid4` fragment is an explicit parameter). -/
def resolveTicketCode (regs : List Reg) (ticket disamb : String) : String :=
  if regs.any fun r => decide (r.ticketCode = ticket) then ticket ++ "-" ++ disamb
  else ticket

/-- `RegistrationService.create_registration`.  The event row is the state, so the
`Event not found` branch does not arise in the per-event embedding; every other
guard appears in source order. -/
def create_registration (users : List User) (today : Int) (s : EventState)
    (userId : Nat) (guests : List Guest) (sessions : List String)
    (newRegId : Nat) (ticket disamb : String) :
    Except ApiErr (Reg × EventState) :=
  if s.status ≠ EventStatus.published then
    .error (.eventNotPublished (statusValue s.status))
  else if isPastEvent s.date today then
    .error .pastEvent
  else if (getByUserAndEvent s.regs userId).isSome then
    .error .alreadyRegistered
  else if guests.length > 2 then
    .error .tooManyGuests
  else
    match firstBadDomain guests with
    | some g => .error (.invalidGuestEmail g.email)
    | none =>
      if (guests.map fun g => strLower g.email).dedup.length ≠
          (guests.map fun g => strLower g.email).length then
        .error .duplicateGuestEmails
      else
        match firstGuestConflict users s.regs guests with
        | some e => .error e
        | none =>
          let totalAttendeesNeeded : Int := 1 + guests.length
          let remainingCapacity := s.capacity - s.registered_count
          if remainingCapacity < totalAttendeesNeeded then
            if remainingCapacity = 0 then .error .eventFull
            else .error (.insufficientCapacity remainingCapacity totalAttendeesNeeded)
          else
            let code := resolveTicketCode s.regs ticket disamb
            let reg : Reg :=
              { id := newRegId, userId := userId, status := RegStatus.confirmed,
                ticketCode := code, guests := guests, sessions := sessions,
                cancelledAt := none }
            .ok (reg, { s with
              regs := s.regs ++ [reg],
              registered_count := s.registered_count + totalAttendeesNeeded })

/-- `WaitlistRepository.get_next_position`: `(max position or 0) + 1` (SQL max is
NULL on an empty waitlist, and Python `0 or 0` is still `0`). -/
def maxPosition : List WEntry → Option Int
  | [] => none
  | w :: ws => some (ws.foldl (fun m x => max m x.position) w.position)

def getNextPosition (wl : List WEntry) : Int :=
  (maxPosition wl).getD 0 + 1

/-- `WaitlistRepository.remove`: delete the row, then bulk-decrement the position
of every row of the same event with a greater position. -/
def eraseFirstEntry : List WEntry → WEntry → List WEntry
  | [], _ => []
  | x :: xs, e => if x = e then xs else x :: eraseFirstEntry xs e

def waitlistRemove (wl : List WEntry) (e : WEntry) : List WEntry :=
  (eraseFirstEntry wl e).map fun x =>
    if e.position < x.position then { x with position := x.position - 1 } else x

/-- `WaitlistRepository.get_first_in_line`: lowest position wins (first row on a
tie, matching the ordered query). -/
def pickFirst (best : WEntry) (rest : List WEntry) : WEntry :=
  rest.foldl (fun b x => if x.position < b.position then x else b) best

def getFirstInLine : List WEntry → Option WEntry
  | [] => none
  | w :: ws => some (pickFirst w ws)

/-- `pref_map.get(value.lower(), EMAIL)`. -/
def prefMap (p : String) : NotificationPreference :=
  if strLower p = "email" then .email
  else if strLower p = "sms" then .sms
  else if strLower p = "both" then .both
  else .email

/-- `RegistrationService.join_waitlist`. -/
def join_waitlist (s : EventState) (userId : Nat) (prefStr : String) (newWid : Nat) :
    Except ApiErr (WEntry × EventState) :=
  if s.status ≠ EventStatus.published then
    .error .eventNotPublishedJoin
  else if (getByUserAndEvent s.regs userId).isSome then
    .error .alreadyRegistered
  else if (s.waitlist.find? fun w => decide (w.userId = userId)).isSome then
    .error .alreadyOnWaitlist
  else if s.registered_count < s.capacity then
    .error (.eventNotFull (s.capacity - s.registered_count))
  else
    let entry : WEntry :=
      { id := newWid, userId := userId, position := getNextPosition s.waitlist,
        pref := prefMap prefStr }
    .ok (entry, { s with
      waitlist := s.waitlist ++ [entry],
      waitlist_count := s.waitlist_count + 1 })

/-- `RegistrationService.leave_waitlist`. -/
def leave_waitlist (s : EventState) (wid userId : Nat) :
    Except ApiErr (WEntry × EventState) :=
  match s.waitlist.find? fun w => decide (w.id = wid) with
  | none => .error .waitlistEntryNotFound
  | some w =>
    if w.userId ≠ userId then .error .notOwnWaitlistEntry
    else
      .ok (w, { s with
        waitlist := waitlistRemove s.waitlist w,
        waitlist_count :=
          if s.waitlist_count - 1 < 0 then 0 else s.waitlist_count - 1 })

/-- `RegistrationService.promote_from_waitlist`.  Note: the success path increments
`registered_count` without any capacity check. -/
def promote_from_waitlist (users : List User) (s : EventState)
    (ticket disamb : String) (newRegId : Nat) : Bool × EventState :=
  match getFirstInLine s.waitlist with
  | none => (false, s)
  | some w =>
    match getUserById users w.userId with
    | none => (false, s)
    | some u =>
      if (getByUserAndEvent s.regs u.id).isSome then
        (false, { s with
          waitlist := waitlistRemove s.waitlist w,
          waitlist_count :=
            if s.waitlist_count - 1 < 0 then 0 else s.waitlist_count - 1 })
      else
        let code := resolveTicketCode s.regs ticket disamb
        let reg : Reg :=
          { id := newRegId, userId := u.id, status := RegStatus.confirmed,
            ticketCode := code, guests := [], sessions := [], cancelledAt := none }
        (true, { s with
          regs := s.regs ++ [reg],
          registered_count := s.registered_count + 1,
          waitlist := waitlistRemove s.waitlist w,
          waitlist_count :=
            if s.waitlist_count - 1 < 0 then 0 else s.waitlist_count - 1 })

/-- `RegistrationRepository.cancel` applied through `get_by_id`: flip the first row
with this id to CANCELLED and stamp `cancelled_at`. -/
def cancelFirst (regs : List Reg) (regId : Nat) (now : Int) : List Reg :=
  match regs with
  | [] => []
  | r :: rs =>
    if r.id = regId then
      { r with status := RegStatus.cancelled, cancelledAt := some now } :: rs
    else r :: cancelFirst rs regId now

/-- `RegistrationService.cancel_registration`: mark cancelled, release the seats
with a floor at zero, then attempt exactly one waitlist promotion; a promotion
that does not promote still leaves the cancellation committed. -/
def cancel_registration (users : List User) (s : EventState)
    (regId userId : Nat) (now : Int)
    (pTicket pDisamb : String) (pRegId : Nat) : Except ApiErr (Reg × EventState) :=
  match s.regs.find? fun r => decide (r.id = regId) with
  | none => .error .registrationNotFound
  | some reg =>
    if reg.userId ≠ userId then .error .notOwnRegistration
    else if reg.status = RegStatus.cancelled then .error .alreadyCancelled
    else
      let totalAttendees : Int := 1 + reg.guests.length
      let cancelledReg :=
        { reg with status := RegStatus.cancelled, cancelledAt := some now }
      let rc := s.registered_count - totalAttendees
      let s1 := { s with
        regs := cancelFirst s.regs regId now,
        registered_count := if rc < 0 then 0 else rc }
      .ok (cancelledReg, (promote_from_waitlist users s1 pTicket pDisamb pRegId).2)

/-- `EventRepository.increment_registered_count`: an unconditional increment, with
no precondition and no capacity check. -/
def increment_registered_count (s : EventState) (count : Int := 1) : EventState :=
  { s with registered_count := s.registered_count + count }

/-- `EventRepository.decrement_registered_count`: floor at zero. -/
def decrement_registered_count (s : EventState) (count : Int := 1) : EventState :=
  { s with registered_count := max 0 (s.registered_count - count) }

/-- One completed core operation on the event, with all external inputs (actor,
payload, clock-derived ticket codes, fresh UUIDs) as parameters. -/
inductive Op where
  | create (userId : Nat) (guests : List Guest) (sessions : List String)
      (newRegId : Nat) (ticket disamb : String)
  | cancel (regId userId : Nat) (now : Int) (pTicket pDisamb : String) (pRegId : Nat)
  | join (userId : Nat) (prefStr : String) (newWid : Nat)
  | leave (wid userId : Nat)
  | promote (ticket disamb : String) (newRegId : Nat)
deriving DecidableEq, Repr

/-- Is the operation a standalone promotion? -/
def Op.isPromote : Op → Bool
  | .promote _ _ _ => true
  | _ => false

/-- Effect of one completed operation on the event state: a request that fails
leaves the state unchanged. -/
def applyOp (users : List User) (today : Int) (s : EventState) : Op → EventState
  | .create u g ss rid t d =>
    match create_registration users today s u g ss rid t d with
    | .ok (_, s') => s'
    | .error _ => s
  | .cancel rid u now pt pd prid =>
    match cancel_registration users s rid u now pt pd prid with
    | .ok (_, s') => s'
    | .error _ => s
  | .join u p wid =>
    match join_waitlist s u p wid with
    | .ok (_, s') => s'
    | .error _ => s
  | .leave wid u =>
    match leave_waitlist s wid u with
    | .ok (_, s') => s'
    | .error _ => s
  | .promote t d rid => (promote_from_waitlist users s t d rid).2

/-- A finite sequence of completed core operations. -/
def run (users : List User) (today : Int) (s : EventState) : List Op → EventState
  | [] => s
  | op :: ops => run users today (applyOp users today s op) ops

/-- Seats held by one registration: the primary attendee plus the guests. -/
def seats (r : Reg) : Int := 1 + r.guests.length

/-- Total seats held by the CONFIRMED registrations of the event. -/
def seatSum (regs : List Reg) : Int :=
  ((regs.filter fun r => decide (r.status = RegStatus.confirmed)).map seats).sum

/-- The capacity-ledger invariant: the counter is within bounds and agrees with
the seats actually held by CONFIRMED registrations (spec section 3). -/
def CapInv (s : EventState) : Prop :=
  0 ≤ s.registered_count ∧ s.registered_count ≤ s.capacity ∧
    s.registered_count = seatSum s.regs

instance : DecidablePred CapInv := fun s => by
  unfold CapInv; infer_instance

/-- At most one CONFIRMED registration per user for this event: the user ids of
the CONFIRMED rows are pairwise distinct. -/
def AtMostOneConfirmed (s : EventState) : Prop :=
  ((s.regs.filter fun r => decide (r.status = RegStatus.confirmed)).map
    fun r => r.userId).Nodup

instance : DecidablePred AtMostOneConfirmed := fun s => by
  unfold AtMostOneConfirmed; infer_instance

/-- Positions of the waitlist rows, as a multiset. -/
def posMS (wl : List WEntry) : Multiset Int :=
  (wl.map fun w => w.position : List Int)

/-- The multiset `{1, ..., n}` of expected waitlist positions. -/
def ladder : Nat → Multiset Int
  | 0 => 0
  | n + 1 => ((n + 1 : Nat) : Int) ::ₘ ladder n

/-- The waitlist-queue invariant: positions are exactly `1..waitlist_count`, and
the counter matches the number of rows. -/
def WaitlistInv (s : EventState) : Prop :=
  posMS s.waitlist = ladder s.waitlist.length ∧
    s.waitlist_count = (s.waitlist.length : Int)

instance : DecidablePred WaitlistInv := fun s => by
  unfold WaitlistInv; infer_instance

/-! ## Concrete fixtures

States and rows used by counterexamples and witnesses.  `fullEvent` is a
published event at capacity (capacity 1, one CONFIRMED registration) whose
waitlist holds one entry for a user without a registration. -/

def uA : User := { id := 1, email := "alice@umd.edu" }

def uB : User := { id := 2, email := "bob@umd.edu" }

def demoUsers : List User := [uA, uB]

def regA : Reg :=
  { id := 10, userId := 1, status := RegStatus.confirmed, ticketCode := "TKT-1",
    guests := [], sessions := [], cancelledAt := none }

def entryB : WEntry := { id := 20, userId := 2, position := 1, pref := .email }

def fullEvent : EventState :=
  { capacity := 1, registered_count := 1, waitlist_count := 1,
    status := EventStatus.published, date := none, regs := [regA], waitlist := [entryB] }

def entryStale : WEntry := { id := 21, userId := 1, position := 1, pref := .email }

def staleEvent : EventState := { fullEvent with waitlist := [entryStale] }

/-! ## Theorems -/

/-- Helper: the per-guest conflict loop only ever reports the two guest-conflict
errors. -/
lemma firstGuestConflict_mem (users : List User) (regs : List Reg) :
    ∀ (gs : List Guest) (e : ApiErr), firstGuestConflict users regs gs = some e →
      (∃ m, e = ApiErr.guestAlreadyPrimary m) ∨ (∃ m, e = ApiErr.guestAlreadyGuest m) := by
  intro gs
  induction gs with
  | nil => intro e h; simp [firstGuestConflict] at h
  | cons g gs ih =>
    intro e h
    unfold firstGuestConflict at h
    split at h
    · exact Or.inl ⟨g.email, (Option.some_injective _ h).symm⟩
    · split at h
      · exact Or.inr ⟨g.email, (Option.some_injective _ h).symm⟩
      · exact ih e h

/-- C7: at the public interface the pydantic validator `GuestInfo.validate_umd_email`
accepts only the `@umd.edu` suffix, so a guest email ending in the documented
second allowed suffix `@terpmail.umd.edu` is rejected there, even though the
service-layer check (and the test suite, `test_register_terpmail_email`) accept
it; an email outside both suffixes is rejected by both layers. -/
theorem claim7_terpmail_guest_divergence :
    validateUmdEmailSchema "guest@terpmail.umd.edu" = false ∧
    serviceGuestEmailOk "guest@terpmail.umd.edu" = true ∧
    validateUmdEmailSchema "Guest@UMD.edu" = true ∧
    serviceGuestEmailOk "someone@gmail.com" = false ∧
    validateUmdEmailSchema "someone@gmail.com" = false := by decide

/-- C1 counterexample: `fullEvent` satisfies `0 ≤ registered_count ≤ capacity`,
yet a single completed standalone promotion pushes `registered_count` to 2 with
`capacity` 1 — the promotion path has no capacity check, so the claimed invariant
fails over this one-operation sequence. -/
theorem claim1_capacity_counterexample :
    (0 ≤ fullEvent.registered_count ∧
      fullEvent.registered_count ≤ fullEvent.capacity) ∧
    ¬ ((run demoUsers 0 fullEvent [Op.promote "TKT-2" "ab12" 11]).registered_count ≤
        (run demoUsers 0 fullEvent [Op.promote "TKT-2" "ab12" 11]).capacity) := by decide

/-- C4 counterexample: with `remaining_capacity = 0`, the ledger increment and the
waitlist-promotion path both still add the seats — no `CapacityExceeded` failure
exists, and the precondition `remaining_capacity ≥ seats` is not enforced on the
promotion path. -/
theorem claim4_reserve_counterexample :
    (increment_registered_count fullEvent 1).registered_count =
        fullEvent.capacity + 1 ∧
    (promote_from_waitlist demoUsers fullEvent "TKT-2" "ab12" 11).1 = true ∧
    (promote_from_waitlist demoUsers fullEvent "TKT-2" "ab12" 11).2.registered_count =
        fullEvent.capacity + 1 := by decide

/-- C10: a published event with a NULL `date` is never rejected as a past event
(the `event.date and event.date < today` guard is skipped), and a past-event
rejection can only come from a non-null date strictly before today. -/
theorem claim10_null_date_past_check (users : List User) (today : Int)
    (s : EventState) (userId : Nat) (guests : List Guest) (sessions : List String)
    (newRegId : Nat) (ticket disamb : String) :
    (s.date = none →
      create_registration users today s userId guests sessions newRegId ticket disamb ≠
        Except.error ApiErr.pastEvent) ∧
    (create_registration users today s userId guests sessions newRegId ticket disamb =
        Except.error ApiErr.pastEvent →
      ∃ d, s.date = some d ∧ d < today) := by
  have key : create_registration users today s userId guests sessions newRegId ticket disamb =
      Except.error ApiErr.pastEvent → isPastEvent s.date today = true := by
    intro h
    unfold create_registration at h
    split at h
    · simp at h
    · split at h
      · assumption
      · split at h
        · simp at h
        · split at h
          · simp at h
          · split at h
            · simp at h
            · split at h
              · simp at h
              · split at h
                · rename_i e he
                  rcases firstGuestConflict_mem users s.regs guests e he with ⟨m, rfl⟩ | ⟨m, rfl⟩ <;>
                    simp at h
                · dsimp only at h
                  split at h
                  · split at h <;> simp at h
                  · simp at h
  constructor
  · intro hnone hcontra
    have := key hcontra
    rw [hnone] at this
    simp [isPastEvent] at this
  · intro h
    have := key h
    unfold isPastEvent at this
    cases hd : s.date with
    | none => rw [hd] at this; simp at this
    | some d =>
      rw [hd] at this
      simp at this
      exact ⟨d, rfl, this⟩

/-- C10 witness: registering for `fullEvent` (NULL date) is not rejected as past. -/
theorem claim10_null_date_past_check_witness :
    create_registration demoUsers 0 fullEvent 2 [] [] 30 "TKT-9" "cd34" ≠
      Except.error ApiErr.pastEvent :=
  (claim10_null_date_past_check demoUsers 0 fullEvent 2 [] [] 30 "TKT-9" "cd34").1 rfl


/-! ### Seat accounting lemmas -/

lemma seats_pos (r : Reg) : 1 ≤ seats r := by
  unfold seats
  have := Int.ofNat_nonneg r.guests.length
  omega

lemma seatSum_nil : seatSum [] = 0 := rfl

lemma seatSum_cons (r : Reg) (l : List Reg) :
    seatSum (r :: l) =
      (if r.status = RegStatus.confirmed then seats r else 0) + seatSum l := by
  unfold seatSum
  by_cases h : r.status = RegStatus.confirmed <;> simp [List.filter_cons, h]

lemma seatSum_append (l1 l2 : List Reg) :
    seatSum (l1 ++ l2) = seatSum l1 + seatSum l2 := by
  unfold seatSum
  simp [List.filter_append]

lemma seatSum_nonneg (l : List Reg) : 0 ≤ seatSum l := by
  induction l with
  | nil => simp [seatSum_nil]
  | cons r l ih =>
    rw [seatSum_cons]
    have := seats_pos r
    split <;> omega

lemma seats_le_seatSum {r : Reg} {l : List Reg} (hm : r ∈ l)
    (hc : r.status = RegStatus.confirmed) : seats r ≤ seatSum l := by
  induction l with
  | nil => cases hm
  | cons x l ih =>
    rw [seatSum_cons]
    rcases List.mem_cons.mp hm with rfl | hm2
    · rw [if_pos hc]
      have := seatSum_nonneg l
      omega
    · have h1 := ih hm2
      have h2 := seats_pos x
      split <;> omega

lemma cancelFirst_seatSum {l : List Reg} {rid : Nat} {r : Reg} (now : Int)
    (hf : l.find? (fun x => decide (x.id = rid)) = some r)
    (hc : r.status = RegStatus.confirmed) :
    seatSum (cancelFirst l rid now) + seats r = seatSum l := by
  induction l with
  | nil => simp at hf
  | cons x l ih =>
    by_cases hx : x.id = rid
    · rw [List.find?_cons_of_pos _ (by simpa using hx)] at hf
      obtain rfl := Option.some_injective _ hf
      unfold cancelFirst
      rw [if_pos hx, seatSum_cons, seatSum_cons, if_pos hc, if_neg (by simp)]
      omega
    · rw [List.find?_cons_of_neg _ (by simpa using hx)] at hf
      unfold cancelFirst
      rw [if_neg hx, seatSum_cons, seatSum_cons]
      have h1 := ih hf
      by_cases hc2 : x.status = RegStatus.confirmed <;> simp only [if_pos, if_neg, hc2,
        if_true, if_false, ite_true, ite_false] <;> omega

lemma cancelFirst_confirmed_sublist (l : List Reg) (rid : Nat) (now : Int) :
    List.Sublist
      ((cancelFirst l rid now).filter fun r => decide (r.status = RegStatus.confirmed))
      (l.filter fun r => decide (r.status = RegStatus.confirmed)) := by
  induction l with
  | nil => simp [cancelFirst]
  | cons x l ih =>
    unfold cancelFirst
    by_cases hx : x.id = rid
    · rw [if_pos hx, List.filter_cons, List.filter_cons]
      simp only [decide_eq_true_eq]
      rw [if_neg (by simp)]
      split
      · exact (List.Sublist.refl _).cons _
      · exact List.Sublist.refl _
    · rw [if_neg hx, List.filter_cons, List.filter_cons]
      split
      · exact ih.cons₂ _
      · exact ih

lemma getByUserAndEvent_none_not_mem {l : List Reg} {uid : Nat}
    (h : getByUserAndEvent l uid = none) :
    uid ∉ (l.filter fun r => decide (r.status = RegStatus.confirmed)).map
      fun r => r.userId := by
  unfold getByUserAndEvent at h
  rw [List.find?_eq_none] at h
  intro hmem
  obtain ⟨r, hr, huid⟩ := List.mem_map.mp hmem
  obtain ⟨hrl, hrc⟩ := List.mem_filter.mp hr
  have := h r hrl
  simp only [decide_eq_true_eq] at this hrc
  exact this ⟨huid, hrc⟩

lemma confirmed_map_append (l : List Reg) (r : Reg)
    (hc : r.status = RegStatus.confirmed) :
    ((l ++ [r]).filter fun x => decide (x.status = RegStatus.confirmed)).map
        (fun x => x.userId) =
      ((l.filter fun x => decide (x.status = RegStatus.confirmed)).map
        fun x => x.userId) ++ [r.userId] := by
  simp [List.filter_append, hc]


/-! ### Waitlist position lemmas -/

lemma posMS_nil : posMS [] = 0 := rfl

lemma posMS_cons (w : WEntry) (wl : List WEntry) :
    posMS (w :: wl) = w.position ::ₘ posMS wl := rfl

lemma mem_posMS {x : Int} {wl : List WEntry} :
    x ∈ posMS wl ↔ ∃ w ∈ wl, w.position = x := by
  unfold posMS
  simp

lemma mem_posMS_of_mem {e : WEntry} {wl : List WEntry} (h : e ∈ wl) :
    e.position ∈ posMS wl :=
  mem_posMS.mpr ⟨e, h, rfl⟩

lemma posMS_append (wl : List WEntry) (w : WEntry) :
    posMS (wl ++ [w]) = w.position ::ₘ posMS wl := by
  unfold posMS
  rw [List.map_append, Multiset.cons_coe]
  exact Multiset.coe_eq_coe.mpr (List.perm_append_singleton _ _)

lemma mem_ladder (x : Int) (n : Nat) : x ∈ ladder n ↔ 1 ≤ x ∧ x ≤ (n : Int) := by
  induction n with
  | zero =>
    simp only [ladder, Multiset.not_mem_zero, false_iff, not_and, not_le]
    omega
  | succ n ih =>
    unfold ladder
    rw [Multiset.mem_cons, ih]
    constructor
    · rintro (rfl | ⟨h1, h2⟩) <;> constructor <;> push_cast <;> omega
    · rintro ⟨h1, h2⟩
      by_cases hx : x = ((n + 1 : Nat) : Int)
      · exact Or.inl hx
      · refine Or.inr ⟨h1, ?_⟩
        push_cast at hx h2 ⊢
        omega

lemma ladder_nodup (n : Nat) : Multiset.Nodup (ladder n) := by
  induction n with
  | zero => simp [ladder]
  | succ n ih =>
    unfold ladder
    rw [Multiset.nodup_cons]
    refine ⟨?_, ih⟩
    rw [mem_ladder]
    push_cast
    omega

lemma ladder_erase_map (n : Nat) (p : Int) (h1 : 1 ≤ p) (h2 : p ≤ ((n + 1 : Nat) : Int)) :
    Multiset.map (fun x => if p < x then x - 1 else x) ((ladder (n + 1)).erase p) =
      ladder n := by
  induction n with
  | zero =>
    have : p = 1 := by push_cast at h2; omega
    subst this
    rfl
  | succ n ih =>
    by_cases hp : p = ((n + 2 : Nat) : Int)
    · subst hp
      show Multiset.map _ ((((n + 2 : Nat) : Int) ::ₘ ladder (n + 1)).erase _) = _
      rw [Multiset.erase_cons_head]
      rw [Multiset.map_congr rfl ?_, Multiset.map_id]
      intro x hx
      rw [mem_ladder] at hx
      have hlt : ¬ ((n + 2 : Nat) : Int) < x := by
        push_cast at hx ⊢
        omega
      simp only [if_neg hlt, id_eq]
    · show Multiset.map _ ((((n + 2 : Nat) : Int) ::ₘ ladder (n + 1)).erase p) = _
      rw [Multiset.erase_cons_tail _ (fun hc => hp hc.symm)]
      rw [Multiset.map_cons]
      rw [ih (by push_cast at h2 hp ⊢; omega)]
      rw [if_pos (by push_cast at h2 hp ⊢; omega)]
      rw [show ((n + 2 : Nat) : Int) - 1 = ((n + 1 : Nat) : Int) by push_cast; ring]
      rfl

lemma eraseFirstEntry_posMS {wl : List WEntry} {e : WEntry} (h : e ∈ wl) :
    posMS (eraseFirstEntry wl e) = (posMS wl).erase e.position := by
  induction wl with
  | nil => cases h
  | cons x xs ih =>
    unfold eraseFirstEntry
    by_cases hx : x = e
    · subst hx
      rw [if_pos rfl, posMS_cons, Multiset.erase_cons_head]
    · rw [if_neg hx, posMS_cons, posMS_cons]
      have hmem : e ∈ xs := by
        rcases List.mem_cons.mp h with rfl | h2
        · exact absurd rfl hx
        · exact h2
      by_cases hpos : x.position = e.position
      · rw [ih hmem, hpos, Multiset.erase_cons_head]
        exact Multiset.cons_erase (mem_posMS_of_mem hmem)
      · rw [Multiset.erase_cons_tail _ hpos, ih hmem]

lemma eraseFirstEntry_length {wl : List WEntry} {e : WEntry} (h : e ∈ wl) :
    (eraseFirstEntry wl e).length + 1 = wl.length := by
  induction wl with
  | nil => cases h
  | cons x xs ih =>
    unfold eraseFirstEntry
    by_cases hx : x = e
    · rw [if_pos hx]
      rfl
    · rw [if_neg hx]
      have hmem : e ∈ xs := by
        rcases List.mem_cons.mp h with rfl | h2
        · exact absurd rfl hx
        · exact h2
      simp only [List.length_cons]
      rw [← ih hmem]

lemma waitlistRemove_posMS {wl : List WEntry} {e : WEntry} (h : e ∈ wl) :
    posMS (waitlistRemove wl e) =
      Multiset.map (fun x => if e.position < x then x - 1 else x)
        ((posMS wl).erase e.position) := by
  unfold waitlistRemove
  rw [← eraseFirstEntry_posMS h]
  unfold posMS
  rw [Multiset.map_coe, List.map_map, List.map_map]
  have hfun : ((fun w : WEntry => w.position) ∘ fun x : WEntry =>
      if e.position < x.position then { x with position := x.position - 1 } else x) =
      ((fun x : Int => if e.position < x then x - 1 else x) ∘
        fun w : WEntry => w.position) := by
    funext x
    by_cases hc : e.position < x.position <;> simp [hc]
  rw [hfun]

lemma waitlistRemove_length {wl : List WEntry} {e : WEntry} (h : e ∈ wl) :
    (waitlistRemove wl e).length + 1 = wl.length := by
  unfold waitlistRemove
  rw [List.length_map]
  exact eraseFirstEntry_length h

lemma waitlistRemove_ladder {wl : List WEntry} {e : WEntry} (h : e ∈ wl)
    (hpos : posMS wl = ladder wl.length) :
    posMS (waitlistRemove wl e) = ladder (waitlistRemove wl e).length := by
  have hlen := waitlistRemove_length h
  have hmem : e.position ∈ posMS wl := mem_posMS_of_mem h
  rw [hpos, mem_ladder] at hmem
  rw [waitlistRemove_posMS h, hpos]
  obtain ⟨m, hm⟩ : ∃ m, wl.length = m + 1 := ⟨(waitlistRemove wl e).length, hlen.symm⟩
  rw [hm] at hmem ⊢
  rw [ladder_erase_map m e.position hmem.1 hmem.2]
  congr 1
  omega

/-! ### Next-position and head-of-line lemmas -/

lemma foldl_max_le (xs : List WEntry) : ∀ a : Int,
    a ≤ xs.foldl (fun m x => max m x.position) a ∧
    ∀ x ∈ xs, x.position ≤ xs.foldl (fun m x => max m x.position) a := by
  induction xs with
  | nil =>
    intro a
    exact ⟨le_refl _, by simp⟩
  | cons y ys ih =>
    intro a
    simp only [List.foldl_cons]
    obtain ⟨h1, h2⟩ := ih (max a y.position)
    refine ⟨le_trans (le_max_left _ _) h1, ?_⟩
    intro x hx
    rcases List.mem_cons.mp hx with rfl | hx2
    · exact le_trans (le_max_right _ _) h1
    · exact h2 x hx2

lemma foldl_max_mem (xs : List WEntry) : ∀ a : Int,
    xs.foldl (fun m x => max m x.position) a = a ∨
    ∃ x ∈ xs, xs.foldl (fun m x => max m x.position) a = x.position := by
  induction xs with
  | nil =>
    intro a
    exact Or.inl rfl
  | cons y ys ih =>
    intro a
    simp only [List.foldl_cons]
    rcases ih (max a y.position) with h | ⟨x, hx, hfx⟩
    · rw [h]
      rcases max_choice a y.position with hm | hm
      · exact Or.inl hm
      · exact Or.inr ⟨y, List.mem_cons_self _ _, hm⟩
    · exact Or.inr ⟨x, List.mem_cons_of_mem _ hx, hfx⟩

lemma getNextPosition_eq {wl : List WEntry} (hpos : posMS wl = ladder wl.length) :
    getNextPosition wl = (wl.length : Int) + 1 := by
  cases wl with
  | nil => rfl
  | cons w ws =>
    have hub : ∀ x ∈ w :: ws, x.position ≤ ((w :: ws).length : Int) := by
      intro x hx
      have hx2 : x.position ∈ posMS (w :: ws) := mem_posMS_of_mem hx
      rw [hpos, mem_ladder] at hx2
      exact hx2.2
    have h1 := (foldl_max_le ws w.position).1
    have h2 := (foldl_max_le ws w.position).2
    have hr_le : ws.foldl (fun m x => max m x.position) w.position ≤
        ((w :: ws).length : Int) := by
      rcases foldl_max_mem ws w.position with h | ⟨x, hx, hfx⟩
      · rw [h]
        exact hub w (List.mem_cons_self _ _)
      · rw [hfx]
        exact hub x (List.mem_cons_of_mem _ hx)
    have hn_mem : (((w :: ws).length : Nat) : Int) ∈ posMS (w :: ws) := by
      rw [hpos, mem_ladder]
      constructor
      · simp only [List.length_cons]
        push_cast
        omega
      · exact le_refl _
    obtain ⟨y, hy, hyp⟩ := mem_posMS.mp hn_mem
    have hr_ge : ((w :: ws).length : Int) ≤
        ws.foldl (fun m x => max m x.position) w.position := by
      rcases List.mem_cons.mp hy with rfl | hy2
      · rw [← hyp]
        exact h1
      · rw [← hyp]
        exact h2 y hy2
    have hmp : maxPosition (w :: ws) =
        some (ws.foldl (fun m x => max m x.position) w.position) := rfl
    unfold getNextPosition
    rw [hmp, Option.getD_some]
    omega

lemma pickFirst_mem (rest : List WEntry) : ∀ best : WEntry,
    pickFirst best rest = best ∨ pickFirst best rest ∈ rest := by
  induction rest with
  | nil =>
    intro best
    exact Or.inl rfl
  | cons x xs ih =>
    intro best
    unfold pickFirst at ih ⊢
    simp only [List.foldl_cons]
    rcases ih (if x.position < best.position then x else best) with h | h
    · rw [h]
      split
      · exact Or.inr (List.mem_cons_self _ _)
      · exact Or.inl rfl
    · exact Or.inr (List.mem_cons_of_mem _ h)

lemma getFirstInLine_mem {wl : List WEntry} {w : WEntry}
    (h : getFirstInLine wl = some w) : w ∈ wl := by
  cases wl with
  | nil => simp [getFirstInLine] at h
  | cons x xs =>
    unfold getFirstInLine at h
    obtain rfl := Option.some_injective _ h
    rcases pickFirst_mem xs x with h2 | h2
    · rw [h2]
      exact List.mem_cons_self _ _
    · exact List.mem_cons_of_mem _ h2


/-! ### Operation shape lemmas -/

lemma create_shape {users : List User} {today : Int} {s : EventState} {userId : Nat}
    {guests : List Guest} {sessions : List String} {newRegId : Nat}
    {ticket disamb : String} {r : Reg} {s' : EventState}
    (h : create_registration users today s userId guests sessions newRegId ticket disamb =
      Except.ok (r, s')) :
    r = { id := newRegId, userId := userId, status := RegStatus.confirmed,
          ticketCode := resolveTicketCode s.regs ticket disamb, guests := guests,
          sessions := sessions, cancelledAt := none } ∧
    s' = { s with regs := s.regs ++ [r],
                  registered_count := s.registered_count + (1 + guests.length) } ∧
    getByUserAndEvent s.regs userId = none ∧
    1 + (guests.length : Int) ≤ s.capacity - s.registered_count := by
  unfold create_registration at h
  split at h
  · simp at h
  · split at h
    · simp at h
    · split at h
      next hsome => simp at h
      next hsome =>
        split at h
        · simp at h
        · split at h
          · simp at h
          · split at h
            · simp at h
            · split at h
              · simp at h
              · dsimp only at h
                split at h
                next hcap => split at h <;> simp at h
                next hcap =>
                  simp only [Except.ok.injEq, Prod.mk.injEq] at h
                  obtain ⟨h1, h2⟩ := h
                  refine ⟨h1.symm, ?_, Option.not_isSome_iff_eq_none.mp hsome, ?_⟩
                  · rw [← h2, ← h1]
                  · omega

lemma cancel_shape {users : List User} {s : EventState} {regId userId : Nat}
    {now : Int} {pt pd : String} {prid : Nat} {rr : Reg} {s' : EventState}
    (h : cancel_registration users s regId userId now pt pd prid = Except.ok (rr, s')) :
    ∃ reg, s.regs.find? (fun x => decide (x.id = regId)) = some reg ∧
      reg.userId = userId ∧ reg.status = RegStatus.confirmed ∧
      rr = { reg with status := RegStatus.cancelled, cancelledAt := some now } ∧
      s' = (promote_from_waitlist users
        { s with regs := cancelFirst s.regs regId now,
                 registered_count :=
                   if s.registered_count - (1 + reg.guests.length) < 0 then 0
                   else s.registered_count - (1 + reg.guests.length) }
        pt pd prid).2 := by
  unfold cancel_registration at h
  split at h
  next => simp at h
  next reg hf =>
    by_cases hown : reg.userId ≠ userId
    · rw [if_pos hown] at h
      simp at h
    · rw [if_neg hown] at h
      push_neg at hown
      by_cases hst : reg.status = RegStatus.cancelled
      · rw [if_pos hst] at h
        simp at h
      · rw [if_neg hst] at h
        dsimp only at h
        simp only [Except.ok.injEq, Prod.mk.injEq] at h
        obtain ⟨h1, h2⟩ := h
        have hconf : reg.status = RegStatus.confirmed := by
          cases hr : reg.status
          · rfl
          · exact absurd hr hst
        exact ⟨reg, hf, hown, hconf, h1.symm, h2.symm⟩

lemma join_shape {s : EventState} {userId : Nat} {prefStr : String} {newWid : Nat}
    {w : WEntry} {s' : EventState}
    (h : join_waitlist s userId prefStr newWid = Except.ok (w, s')) :
    w = { id := newWid, userId := userId, position := getNextPosition s.waitlist,
          pref := prefMap prefStr } ∧
    s' = { s with waitlist := s.waitlist ++ [w],
                  waitlist_count := s.waitlist_count + 1 } ∧
    s.capacity ≤ s.registered_count := by
  unfold join_waitlist at h
  split at h
  · simp at h
  · split at h
    · simp at h
    · split at h
      · simp at h
      · split at h
        next hfull => simp at h
        next hfull =>
          dsimp only at h
          simp only [Except.ok.injEq, Prod.mk.injEq] at h
          obtain ⟨h1, h2⟩ := h
          refine ⟨h1.symm, by rw [← h2, ← h1], le_of_not_lt hfull⟩

lemma leave_shape {s : EventState} {wid userId : Nat} {w : WEntry} {s' : EventState}
    (h : leave_waitlist s wid userId = Except.ok (w, s')) :
    s.waitlist.find? (fun x => decide (x.id = wid)) = some w ∧ w ∈ s.waitlist ∧
    s' = { s with waitlist := waitlistRemove s.waitlist w,
                  waitlist_count := if s.waitlist_count - 1 < 0 then 0
                                    else s.waitlist_count - 1 } := by
  unfold leave_waitlist at h
  split at h
  next => simp at h
  next w0 hf =>
    split at h
    · simp at h
    · simp only [Except.ok.injEq, Prod.mk.injEq] at h
      obtain ⟨h1, h2⟩ := h
      subst h1
      exact ⟨hf, List.mem_of_find?_eq_some hf, h2.symm⟩

lemma promote_shape (users : List User) (s : EventState) (t d : String) (rid : Nat) :
    promote_from_waitlist users s t d rid = (false, s) ∨
    (∃ w : WEntry, getFirstInLine s.waitlist = some w ∧ w ∈ s.waitlist ∧
      promote_from_waitlist users s t d rid =
        (false, { s with waitlist := waitlistRemove s.waitlist w,
                         waitlist_count := if s.waitlist_count - 1 < 0 then 0
                                           else s.waitlist_count - 1 })) ∨
    (∃ (w : WEntry) (u : User), getFirstInLine s.waitlist = some w ∧ w ∈ s.waitlist ∧
      getByUserAndEvent s.regs u.id = none ∧
      promote_from_waitlist users s t d rid =
        (true, { s with
          regs := s.regs ++
            [{ id := rid, userId := u.id, status := RegStatus.confirmed,
               ticketCode := resolveTicketCode s.regs t d, guests := [],
               sessions := [], cancelledAt := none }],
          registered_count := s.registered_count + 1,
          waitlist := waitlistRemove s.waitlist w,
          waitlist_count := if s.waitlist_count - 1 < 0 then 0
                            else s.waitlist_count - 1 })) := by
  unfold promote_from_waitlist
  split
  next => exact Or.inl rfl
  next w hw =>
    split
    next => exact Or.inl rfl
    next u hu =>
      by_cases hreg : (getByUserAndEvent s.regs u.id).isSome
      · rw [if_pos hreg]
        exact Or.inr (Or.inl ⟨w, hw, getFirstInLine_mem hw, rfl⟩)
      · rw [if_neg hreg]
        exact Or.inr (Or.inr ⟨w, u, hw, getFirstInLine_mem hw,
          Option.not_isSome_iff_eq_none.mp hreg, rfl⟩)


/-! ### Capacity invariant preservation -/

lemma capInv_promote {users : List User} {s : EventState} {t d : String} {rid : Nat}
    (h0 : 0 ≤ s.registered_count)
    (h1 : s.registered_count = seatSum s.regs)
    (h2 : s.registered_count + 1 ≤ s.capacity) :
    CapInv (promote_from_waitlist users s t d rid).2 := by
  rcases promote_shape users s t d rid with hp | ⟨w, _, _, hp⟩ | ⟨w, u, _, _, hnone, hp⟩
  · rw [hp]
    exact ⟨h0, by dsimp only; omega, h1⟩
  · rw [hp]
    exact ⟨h0, by dsimp only; omega, h1⟩
  · rw [hp]
    refine ⟨by dsimp only; omega, by dsimp only; omega, ?_⟩
    dsimp only
    rw [seatSum_append, seatSum_cons, seatSum_nil]
    simp [seats]
    omega

lemma nonneg_promote {users : List User} {s : EventState} {t d : String} {rid : Nat}
    (h : 0 ≤ s.registered_count) :
    0 ≤ (promote_from_waitlist users s t d rid).2.registered_count := by
  rcases promote_shape users s t d rid with hp | ⟨w, _, _, hp⟩ | ⟨w, u, _, _, _, hp⟩ <;>
    rw [hp] <;> dsimp only <;> omega

lemma applyOp_capInv_create {users : List User} {today : Int} {s : EventState}
    {userId : Nat} {guests : List Guest} {sessions : List String} {newRegId : Nat}
    {ticket disamb : String} (h : CapInv s) :
    CapInv (applyOp users today s (Op.create userId guests sessions newRegId ticket disamb)) := by
  obtain ⟨h0, h1, h2⟩ := h
  simp only [applyOp]
  split
  next r s' heq =>
    obtain ⟨hr, hs', hnone, hcap⟩ := create_shape heq
    subst hs'
    have hlen : (0 : Int) ≤ guests.length := Int.ofNat_nonneg _
    refine ⟨by dsimp only; omega, by dsimp only; omega, ?_⟩
    dsimp only
    rw [seatSum_append, seatSum_cons, seatSum_nil, hr]
    simp [seats]
    omega
  next => exact ⟨h0, h1, h2⟩

lemma applyOp_capInv_cancel {users : List User} {today : Int} {s : EventState}
    {regId userId : Nat} {now : Int} {pt pd : String} {prid : Nat} (h : CapInv s) :
    CapInv (applyOp users today s (Op.cancel regId userId now pt pd prid)) := by
  obtain ⟨h0, h1, h2⟩ := h
  simp only [applyOp]
  split
  next rr s' heq =>
    obtain ⟨reg, hf, hown, hconf, hrr, hs'⟩ := cancel_shape heq
    subst hs'
    have hmem : reg ∈ s.regs := List.mem_of_find?_eq_some hf
    have hle : seats reg ≤ seatSum s.regs := seats_le_seatSum hmem hconf
    have hsum := cancelFirst_seatSum now hf hconf
    have hpos := seats_pos reg
    have hseats : seats reg = 1 + (reg.guests.length : Int) := rfl
    have hnotneg : ¬ (s.registered_count - (1 + (reg.guests.length : Int)) < 0) := by
      omega
    apply capInv_promote
    · dsimp only
      rw [if_neg hnotneg]
      omega
    · dsimp only
      rw [if_neg hnotneg]
      omega
    · dsimp only
      rw [if_neg hnotneg]
      omega
  next => exact ⟨h0, h1, h2⟩

lemma applyOp_capInv_join {users : List User} {today : Int} {s : EventState}
    {userId : Nat} {prefStr : String} {newWid : Nat} (h : CapInv s) :
    CapInv (applyOp users today s (Op.join userId prefStr newWid)) := by
  simp only [applyOp]
  split
  next w s' heq =>
    obtain ⟨hw, hs', _⟩ := join_shape heq
    subst hs'
    exact h
  next => exact h

lemma applyOp_capInv_leave {users : List User} {today : Int} {s : EventState}
    {wid userId : Nat} (h : CapInv s) :
    CapInv (applyOp users today s (Op.leave wid userId)) := by
  simp only [applyOp]
  split
  next w s' heq =>
    obtain ⟨hf, hmem, hs'⟩ := leave_shape heq
    subst hs'
    exact h
  next => exact h

lemma run_capInv (users : List User) (today : Int) :
    ∀ ops : List Op, (∀ op ∈ ops, op.isPromote = false) →
      ∀ s : EventState, CapInv s → CapInv (run users today s ops) := by
  intro ops
  induction ops with
  | nil =>
    intro _ s h
    exact h
  | cons op ops ih =>
    intro hall s h
    have hop : op.isPromote = false := hall op (List.mem_cons_self _ _)
    have htail : ∀ o ∈ ops, o.isPromote = false :=
      fun o ho => hall o (List.mem_cons_of_mem _ ho)
    unfold run
    apply ih htail
    cases op with
    | create userId guests sessions newRegId ticket disamb => exact applyOp_capInv_create h
    | cancel regId userId now pt pd prid => exact applyOp_capInv_cancel h
    | join userId prefStr newWid => exact applyOp_capInv_join h
    | leave wid userId => exact applyOp_capInv_leave h
    | promote t d rid => simp [Op.isPromote] at hop

lemma applyOp_nonneg {users : List User} {today : Int} {s : EventState} {op : Op}
    (h : 0 ≤ s.registered_count) :
    0 ≤ (applyOp users today s op).registered_count := by
  cases op with
  | create userId guests sessions newRegId ticket disamb =>
    simp only [applyOp]
    split
    next r s' heq =>
      obtain ⟨hr, hs', _, _⟩ := create_shape heq
      subst hs'
      dsimp only
      have hlen : (0 : Int) ≤ guests.length := Int.ofNat_nonneg _
      omega
    next => exact h
  | cancel regId userId now pt pd prid =>
    simp only [applyOp]
    split
    next rr s' heq =>
      obtain ⟨reg, hf, _, _, _, hs'⟩ := cancel_shape heq
      subst hs'
      apply nonneg_promote
      dsimp only
      split <;> omega
    next => exact h
  | join userId prefStr newWid =>
    simp only [applyOp]
    split
    next w s' heq =>
      obtain ⟨hw, hs', _⟩ := join_shape heq
      subst hs'
      exact h
    next => exact h
  | leave wid userId =>
    simp only [applyOp]
    split
    next w s' heq =>
      obtain ⟨hf, hmem, hs'⟩ := leave_shape heq
      subst hs'
      exact h
    next => exact h
  | promote t d rid =>
    simp only [applyOp]
    exact nonneg_promote h

lemma run_nonneg (users : List User) (today : Int) :
    ∀ (ops : List Op) (s : EventState), 0 ≤ s.registered_count →
      0 ≤ (run users today s ops).registered_count := by
  intro ops
  induction ops with
  | nil =>
    intro s h
    exact h
  | cons op ops ih =>
    intro s h
    unfold run
    exact ih _ (applyOp_nonneg h)

/-- C1 (amended): `registered_count` never goes negative under any sequence of
completed core operations; and it never exceeds `capacity` under sequences of
registration creations, cancellations (each with its promotion attempt) and
waitlist joins/leaves — provided the start state also satisfies the ledger
accounting invariant that `registered_count` equals the seats of CONFIRMED
registrations — but standalone promotions are excluded, because the promotion
path increments `registered_count` without any capacity check (see the
counterexample). -/
theorem claim1_capacity_amended (users : List User) (today : Int) :
    (∀ ops : List Op, (∀ op ∈ ops, op.isPromote = false) →
      ∀ s : EventState, CapInv s → CapInv (run users today s ops)) ∧
    (∀ (ops : List Op) (s : EventState), 0 ≤ s.registered_count →
      0 ≤ (run users today s ops).registered_count) :=
  ⟨run_capInv users today, run_nonneg users today⟩

/-- C1 witness: cancelling the sole registration of the full demo event (which
triggers one waitlist promotion) keeps the ledger within bounds. -/
theorem claim1_capacity_amended_witness :
    CapInv (run demoUsers 0 fullEvent [Op.cancel 10 1 5 "TKT-3" "ef56" 12]) :=
  (claim1_capacity_amended demoUsers 0).1 [Op.cancel 10 1 5 "TKT-3" "ef56" 12]
    (by decide) fullEvent (by decide)


/-! ### At-most-one-confirmed preservation -/

lemma amo_promote {users : List User} {s : EventState} {t d : String} {rid : Nat}
    (h : AtMostOneConfirmed s) :
    AtMostOneConfirmed (promote_from_waitlist users s t d rid).2 := by
  rcases promote_shape users s t d rid with hp | ⟨w, _, _, hp⟩ | ⟨w, u, _, _, hnone, hp⟩
  · rw [hp]
    exact h
  · rw [hp]
    exact h
  · rw [hp]
    unfold AtMostOneConfirmed at h ⊢
    dsimp only
    rw [confirmed_map_append _ _ rfl]
    apply List.Nodup.append h (List.nodup_singleton _)
    rw [List.disjoint_singleton]
    exact getByUserAndEvent_none_not_mem hnone

lemma applyOp_amo_create {users : List User} {today : Int} {s : EventState}
    {userId : Nat} {guests : List Guest} {sessions : List String} {newRegId : Nat}
    {ticket disamb : String} (h : AtMostOneConfirmed s) :
    AtMostOneConfirmed
      (applyOp users today s (Op.create userId guests sessions newRegId ticket disamb)) := by
  simp only [applyOp]
  split
  next r s' heq =>
    obtain ⟨hr, hs', hnone, _⟩ := create_shape heq
    subst hs'
    have hc : r.status = RegStatus.confirmed := by rw [hr]
    have huid : r.userId = userId := by rw [hr]
    unfold AtMostOneConfirmed at h ⊢
    dsimp only
    rw [confirmed_map_append _ _ hc]
    apply List.Nodup.append h (List.nodup_singleton _)
    rw [List.disjoint_singleton, huid]
    exact getByUserAndEvent_none_not_mem hnone
  next => exact h

lemma applyOp_amo_cancel {users : List User} {today : Int} {s : EventState}
    {regId userId : Nat} {now : Int} {pt pd : String} {prid : Nat}
    (h : AtMostOneConfirmed s) :
    AtMostOneConfirmed (applyOp users today s (Op.cancel regId userId now pt pd prid)) := by
  simp only [applyOp]
  split
  next rr s' heq =>
    obtain ⟨reg, hf, _, _, _, hs'⟩ := cancel_shape heq
    subst hs'
    apply amo_promote
    unfold AtMostOneConfirmed at h ⊢
    dsimp only
    exact List.Nodup.sublist ((cancelFirst_confirmed_sublist s.regs regId now).map _) h
  next => exact h

lemma applyOp_amo {users : List User} {today : Int} {s : EventState} {op : Op}
    (h : AtMostOneConfirmed s) : AtMostOneConfirmed (applyOp users today s op) := by
  cases op with
  | create userId guests sessions newRegId ticket disamb => exact applyOp_amo_create h
  | cancel regId userId now pt pd prid => exact applyOp_amo_cancel h
  | join userId prefStr newWid =>
    simp only [applyOp]
    split
    next w s' heq =>
      obtain ⟨hw, hs', _⟩ := join_shape heq
      subst hs'
      exact h
    next => exact h
  | leave wid userId =>
    simp only [applyOp]
    split
    next w s' heq =>
      obtain ⟨hf, hmem, hs'⟩ := leave_shape heq
      subst hs'
      exact h
    next => exact h
  | promote t d rid =>
    simp only [applyOp]
    exact amo_promote h

lemma run_amo (users : List User) (today : Int) :
    ∀ (ops : List Op) (s : EventState), AtMostOneConfirmed s →
      AtMostOneConfirmed (run users today s ops) := by
  intro ops
  induction ops with
  | nil =>
    intro s h
    exact h
  | cons op ops ih =>
    intro s h
    unfold run
    exact ih _ (applyOp_amo h)

/-- C2: for every event, from any state with at most one CONFIRMED registration
per user, every finite sequence of completed core operations (creation,
cancellation with its promotion attempt, waitlist join/leave, standalone
promotion) preserves that uniqueness: creation is guarded by
`get_by_user_and_event`, promotion re-validates the same guard, and
cancellation only removes a row from the CONFIRMED set. -/
theorem claim2_at_most_one_confirmed (users : List User) (today : Int)
    (ops : List Op) (s : EventState) (h : AtMostOneConfirmed s) :
    AtMostOneConfirmed (run users today s ops) :=
  run_amo users today ops s h

/-- C2 witness: cancel plus automatic promotion on the full demo event, then a
registration attempt by the already-registered promoted user. -/
theorem claim2_at_most_one_confirmed_witness :
    AtMostOneConfirmed (run demoUsers 0 fullEvent
      [Op.cancel 10 1 5 "TKT-3" "ef56" 12, Op.create 2 [] [] 13 "TKT-4" "gh78"]) :=
  claim2_at_most_one_confirmed demoUsers 0
    [Op.cancel 10 1 5 "TKT-3" "ef56" 12, Op.create 2 [] [] 13 "TKT-4" "gh78"]
    fullEvent (by decide)


/-! ### Waitlist contiguity preservation -/

lemma wpair_remove {wl : List WEntry} {wc : Int} {w : WEntry} (hmem : w ∈ wl)
    (h1 : posMS wl = ladder wl.length) (h2 : wc = (wl.length : Int)) :
    posMS (waitlistRemove wl w) = ladder (waitlistRemove wl w).length ∧
    (if wc - 1 < 0 then 0 else wc - 1) = ((waitlistRemove wl w).length : Int) := by
  have hl := waitlistRemove_length hmem
  refine ⟨waitlistRemove_ladder hmem h1, ?_⟩
  split <;> omega

lemma wpair_join {wl : List WEntry} {wc : Int} (h1 : posMS wl = ladder wl.length)
    (h2 : wc = (wl.length : Int)) (e : WEntry)
    (he : e.position = getNextPosition wl) :
    posMS (wl ++ [e]) = ladder (wl ++ [e]).length ∧
    wc + 1 = ((wl ++ [e]).length : Int) := by
  constructor
  · rw [posMS_append, List.length_append]
    show _ = ladder (wl.length + 1)
    unfold ladder
    rw [he, getNextPosition_eq h1, h1]
    congr 1
  · rw [List.length_append, List.length_singleton]
    push_cast
    omega

lemma waitlistInv_promote {users : List User} {s : EventState} {t d : String}
    {rid : Nat} (h : WaitlistInv s) :
    WaitlistInv (promote_from_waitlist users s t d rid).2 := by
  obtain ⟨h1, h2⟩ := h
  rcases promote_shape users s t d rid with hp | ⟨w, hw, hmem, hp⟩ | ⟨w, u, hw, hmem, _, hp⟩
  · rw [hp]
    exact ⟨h1, h2⟩
  · rw [hp]
    exact wpair_remove hmem h1 h2
  · rw [hp]
    exact wpair_remove hmem h1 h2

lemma applyOp_waitlistInv {users : List User} {today : Int} {s : EventState} {op : Op}
    (h : WaitlistInv s) : WaitlistInv (applyOp users today s op) := by
  cases op with
  | create userId guests sessions newRegId ticket disamb =>
    simp only [applyOp]
    split
    next r s' heq =>
      obtain ⟨hr, hs', _, _⟩ := create_shape heq
      subst hs'
      exact h
    next => exact h
  | cancel regId userId now pt pd prid =>
    simp only [applyOp]
    split
    next rr s' heq =>
      obtain ⟨reg, hf, _, _, _, hs'⟩ := cancel_shape heq
      subst hs'
      exact waitlistInv_promote h
    next => exact h
  | join userId prefStr newWid =>
    simp only [applyOp]
    split
    next w s' heq =>
      obtain ⟨hw, hs', _⟩ := join_shape heq
      subst hs'
      obtain ⟨h1, h2⟩ := h
      have hpos : w.position = getNextPosition s.waitlist := by rw [hw]
      exact wpair_join h1 h2 w hpos
    next => exact h
  | leave wid userId =>
    simp only [applyOp]
    split
    next w s' heq =>
      obtain ⟨hf, hmem, hs'⟩ := leave_shape heq
      subst hs'
      obtain ⟨h1, h2⟩ := h
      exact wpair_remove hmem h1 h2
    next => exact h
  | promote t d rid =>
    simp only [applyOp]
    exact waitlistInv_promote h

lemma run_waitlistInv (users : List User) (today : Int) :
    ∀ (ops : List Op) (s : EventState), WaitlistInv s →
      WaitlistInv (run users today s ops) := by
  intro ops
  induction ops with
  | nil =>
    intro s h
    exact h
  | cons op ops ih =>
    intro s h
    unfold run
    exact ih _ (applyOp_waitlistInv h)

/-- C3: for every event, any sequence of completed core operations (each
waitlist mutation deletes its row and bulk-decrements every greater position)
keeps the waitlist positions equal to the contiguous range `1..waitlist_count`:
the position multiset stays `{1, ..., n}`, hence no duplicates and no gaps, and
`waitlist_count` matches the number of rows. -/
theorem claim3_waitlist_contiguity (users : List User) (today : Int)
    (ops : List Op) (s : EventState) (h : WaitlistInv s) :
    WaitlistInv (run users today s ops) ∧
    ((run users today s ops).waitlist.map fun w => w.position).Nodup ∧
    ∀ k : Int, (k ∈ (run users today s ops).waitlist.map fun w => w.position) ↔
      1 ≤ k ∧ k ≤ (run users today s ops).waitlist_count := by
  have hrun := run_waitlistInv users today ops s h
  obtain ⟨h1, h2⟩ := hrun
  refine ⟨⟨h1, h2⟩, ?_, ?_⟩
  · have hn := ladder_nodup (run users today s ops).waitlist.length
    rw [← h1] at hn
    exact Multiset.coe_nodup.mp hn
  · intro k
    have hmc : (k ∈ (run users today s ops).waitlist.map fun w => w.position) ↔
        k ∈ posMS (run users today s ops).waitlist := Iff.symm Multiset.mem_coe
    rw [hmc, h1, mem_ladder, h2]

/-- C3 witness: the head of the demo waitlist leaves; the remaining (empty)
waitlist is still the contiguous range. -/
theorem claim3_waitlist_contiguity_witness :
    WaitlistInv (run demoUsers 0 fullEvent [Op.leave 20 2]) :=
  (claim3_waitlist_contiguity demoUsers 0 [Op.leave 20 2] fullEvent (by decide)).1


/-- C4 (amended): there is no reserve operation with a CapacityExceeded check.
The repository increment adds the seats unconditionally; the only site enforcing
the precondition `remaining_capacity ≥ seats` is the registration-creation
service code (a successful creation implies the precondition held and the
counter rose by exactly the seats taken); the waitlist-promotion path reserves
its seat with no capacity check at all. -/
theorem claim4_reserve_amended :
    (∀ (s : EventState) (count : Int),
      (increment_registered_count s count).registered_count =
        s.registered_count + count) ∧
    (∀ (users : List User) (today : Int) (s : EventState) (userId : Nat)
        (guests : List Guest) (sessions : List String) (newRegId : Nat)
        (ticket disamb : String) (r : Reg) (s' : EventState),
      create_registration users today s userId guests sessions newRegId ticket disamb =
          Except.ok (r, s') →
      1 + (guests.length : Int) ≤ s.capacity - s.registered_count ∧
        s'.registered_count = s.registered_count + (1 + guests.length)) ∧
    (∀ (users : List User) (s : EventState) (t d : String) (rid : Nat)
        (w : WEntry) (u : User),
      getFirstInLine s.waitlist = some w →
      getUserById users w.userId = some u →
      getByUserAndEvent s.regs u.id = none →
      (promote_from_waitlist users s t d rid).1 = true ∧
        (promote_from_waitlist users s t d rid).2.registered_count =
          s.registered_count + 1) := by
  refine ⟨fun s count => rfl, ?_, ?_⟩
  · intro users today s userId guests sessions newRegId ticket disamb r s' h
    obtain ⟨hr, hs', hnone, hcap⟩ := create_shape h
    subst hs'
    exact ⟨hcap, rfl⟩
  · intro users s t d rid w u hw hu hnone
    unfold promote_from_waitlist
    split
    next hw2 =>
      rw [hw2] at hw
      simp at hw
    next w2 hw2 =>
      rw [hw2] at hw
      injection hw with hww
      subst hww
      split
      next hu2 =>
        rw [hu2] at hu
        simp at hu
      next u2 hu2 =>
        rw [hu2] at hu
        injection hu with huu
        subst huu
        rw [if_neg (by rw [hnone]; simp)]
        exact ⟨rfl, rfl⟩

/-- C4 witness: promoting on the already-full demo event succeeds and raises the
counter past capacity, with no error. -/
theorem claim4_reserve_amended_witness :
    (promote_from_waitlist demoUsers fullEvent "TKT-2" "ab12" 11).1 = true ∧
      (promote_from_waitlist demoUsers fullEvent "TKT-2" "ab12" 11).2.registered_count =
        fullEvent.registered_count + 1 :=
  claim4_reserve_amended.2.2 demoUsers fullEvent "TKT-2" "ab12" 11 entryB uB
    (by decide) (by decide) (by decide)

/-- C5: cancelling an existing, owned, CONFIRMED registration frees
`1 + len(guests)` seats, stamps the row CANCELLED with `cancelled_at := now`,
lowers `registered_count` by the freed seats with a floor at zero, and then runs
exactly one waitlist-promotion attempt on the resulting state; whatever that
attempt reports, the cancelled registration is returned. -/
theorem claim5_cancellation_effects (users : List User) (s : EventState)
    (regId userId : Nat) (now : Int) (pt pd : String) (prid : Nat) (reg : Reg)
    (hf : s.regs.find? (fun x => decide (x.id = regId)) = some reg)
    (hown : reg.userId = userId)
    (hconf : reg.status = RegStatus.confirmed) :
    cancel_registration users s regId userId now pt pd prid =
      Except.ok
        ({ reg with status := RegStatus.cancelled, cancelledAt := some now },
          (promote_from_waitlist users
            { s with regs := cancelFirst s.regs regId now,
                     registered_count :=
                       if s.registered_count - (1 + (reg.guests.length : Int)) < 0 then 0
                       else s.registered_count - (1 + (reg.guests.length : Int)) }
            pt pd prid).2) := by
  unfold cancel_registration
  split
  next hf2 =>
    rw [hf2] at hf
    simp at hf
  next reg2 hf2 =>
    rw [hf2] at hf
    injection hf with hrr
    subst hrr
    rw [if_neg (by rw [hown]; exact fun hc => hc rfl), if_neg (by rw [hconf]; simp)]

/-- C5 witness: user 1 cancels the sole registration of the full demo event. -/
theorem claim5_cancellation_effects_witness :
    cancel_registration demoUsers fullEvent 10 1 5 "TKT-3" "ef56" 12 =
      Except.ok
        ({ regA with status := RegStatus.cancelled, cancelledAt := some 5 },
          (promote_from_waitlist demoUsers
            { fullEvent with regs := cancelFirst fullEvent.regs 10 5,
                             registered_count :=
                               if fullEvent.registered_count -
                                   (1 + (regA.guests.length : Int)) < 0 then 0
                               else fullEvent.registered_count -
                                 (1 + (regA.guests.length : Int)) }
            "TKT-3" "ef56" 12).2) :=
  claim5_cancellation_effects demoUsers fullEvent 10 1 5 "TKT-3" "ef56" 12 regA
    (by decide) (by decide) (by decide)

/-- C6: when the head of the waitlist belongs to a user who already holds a
CONFIRMED registration for the event, the promotion engine dequeues the stale
entry (with its downstream renumbering), decrements `waitlist_count` (floored at
zero), creates no registration, leaves `registered_count` alone, and reports
that no promotion occurred. -/
theorem claim6_stale_head_promotion (users : List User) (s : EventState)
    (t d : String) (rid : Nat) (w : WEntry) (u : User)
    (hw : getFirstInLine s.waitlist = some w)
    (hu : getUserById users w.userId = some u)
    (hconf : (getByUserAndEvent s.regs u.id).isSome = true) :
    (promote_from_waitlist users s t d rid).1 = false ∧
    (promote_from_waitlist users s t d rid).2.regs = s.regs ∧
    (promote_from_waitlist users s t d rid).2.registered_count =
      s.registered_count ∧
    (promote_from_waitlist users s t d rid).2.waitlist =
      waitlistRemove s.waitlist w ∧
    (promote_from_waitlist users s t d rid).2.waitlist_count =
      (if s.waitlist_count - 1 < 0 then 0 else s.waitlist_count - 1) := by
  have hp : promote_from_waitlist users s t d rid =
      (false, { s with waitlist := waitlistRemove s.waitlist w,
                       waitlist_count := if s.waitlist_count - 1 < 0 then 0
                                         else s.waitlist_count - 1 }) := by
    unfold promote_from_waitlist
    split
    next hw2 =>
      rw [hw2] at hw
      simp at hw
    next w2 hw2 =>
      rw [hw2] at hw
      injection hw with hww
      subst hww
      split
      next hu2 =>
        rw [hu2] at hu
        simp at hu
      next u2 hu2 =>
        rw [hu2] at hu
        injection hu with huu
        subst huu
        rw [if_pos hconf]
  rw [hp]
  exact ⟨rfl, rfl, rfl, rfl, rfl⟩

/-- C6 witness: the demo event whose waitlist head is user 1, who already holds
the CONFIRMED registration. -/
theorem claim6_stale_head_promotion_witness :
    (promote_from_waitlist demoUsers staleEvent "TKT-6" "kl12" 14).1 = false ∧
    (promote_from_waitlist demoUsers staleEvent "TKT-6" "kl12" 14).2.regs =
      staleEvent.regs ∧
    (promote_from_waitlist demoUsers staleEvent "TKT-6" "kl12" 14).2.registered_count =
      staleEvent.registered_count ∧
    (promote_from_waitlist demoUsers staleEvent "TKT-6" "kl12" 14).2.waitlist =
      waitlistRemove staleEvent.waitlist entryStale ∧
    (promote_from_waitlist demoUsers staleEvent "TKT-6" "kl12" 14).2.waitlist_count =
      (if staleEvent.waitlist_count - 1 < 0 then 0
       else staleEvent.waitlist_count - 1) :=
  claim6_stale_head_promotion demoUsers staleEvent "TKT-6" "kl12" 14 entryStale uA
    (by decide) (by decide) (by decide)


/-- C8: when every validation before the capacity step passes but the remaining
capacity is short of the `1 + len(guests)` seats required, the request fails
with a 409 Conflict and nothing is registered: remaining exactly 0 yields the
event-full error carrying the `X-Suggestion: join-waitlist` hint, and any other
shortfall yields the message with the exact remaining and required counts. -/
theorem claim8_capacity_conflict (users : List User) (today : Int) (s : EventState)
    (userId : Nat) (guests : List Guest) (sessions : List String) (newRegId : Nat)
    (ticket disamb : String)
    (hpub : s.status = EventStatus.published)
    (hdate : isPastEvent s.date today = false)
    (hreg : getByUserAndEvent s.regs userId = none)
    (hg : ¬ guests.length > 2)
    (hdom : firstBadDomain guests = none)
    (hdup : (guests.map fun g => strLower g.email).dedup.length =
      (guests.map fun g => strLower g.email).length)
    (hconf : firstGuestConflict users s.regs guests = none)
    (hcap : s.capacity - s.registered_count < 1 + (guests.length : Int)) :
    create_registration users today s userId guests sessions newRegId ticket disamb =
      (if s.capacity - s.registered_count = 0 then Except.error ApiErr.eventFull
       else Except.error (ApiErr.insufficientCapacity (s.capacity - s.registered_count)
         (1 + guests.length))) ∧
    ApiErr.eventFull.statusCode = 409 ∧
    ApiErr.eventFull.suggestion = some "join-waitlist" ∧
    (ApiErr.insufficientCapacity (s.capacity - s.registered_count)
      (1 + guests.length)).statusCode = 409 ∧
    (ApiErr.insufficientCapacity (s.capacity - s.registered_count)
      (1 + guests.length)).detail =
      "Insufficient capacity. Only " ++ toString (s.capacity - s.registered_count) ++
        " spot(s) remaining, but you need " ++ toString (1 + (guests.length : Int)) ++
        " (including guests). Please reduce guests or join waitlist." ∧
    applyOp users today s (Op.create userId guests sessions newRegId ticket disamb) = s := by
  have hmain : create_registration users today s userId guests sessions newRegId
      ticket disamb =
      (if s.capacity - s.registered_count = 0 then Except.error ApiErr.eventFull
       else Except.error (ApiErr.insufficientCapacity (s.capacity - s.registered_count)
         (1 + guests.length))) := by
    unfold create_registration
    rw [if_neg (by rw [hpub]; exact fun hc => hc rfl), if_neg (by rw [hdate]; simp),
        if_neg (by rw [hreg]; simp), if_neg hg]
    split
    next g hg2 =>
      rw [hg2] at hdom
      simp at hdom
    next hg2 =>
      rw [if_neg (by simp [hdup])]
      split
      next e he =>
        rw [he] at hconf
        simp at hconf
      next he =>
        dsimp only
        rw [if_pos hcap]
  have happ : applyOp users today s
      (Op.create userId guests sessions newRegId ticket disamb) = s := by
    simp only [applyOp]
    split
    next r s' heq =>
      rw [hmain] at heq
      split at heq <;> simp at heq
    next => rfl
  exact ⟨hmain, rfl, rfl, rfl, rfl, happ⟩

/-- C8 witness: registering on the full demo event is rejected and the state is
unchanged. -/
theorem claim8_capacity_conflict_witness :
    applyOp demoUsers 0 fullEvent (Op.create 2 [] [] 31 "TKT-5" "ij90") = fullEvent :=
  (claim8_capacity_conflict demoUsers 0 fullEvent 2 [] [] 31 "TKT-5" "ij90"
    (by decide) (by decide) (by decide) (by decide) (by decide) (by decide)
    (by decide) (by decide)).2.2.2.2.2

/-- C9: a waitlist join by a user with no CONFIRMED registration and no waitlist
entry on a published event is rejected with the 400 not-full error whenever
`registered_count < capacity`, and otherwise succeeds, appending an entry at
position `(max existing position or 0) + 1` and incrementing `waitlist_count`
by one. -/
theorem claim9_join_waitlist (s : EventState) (userId : Nat) (prefStr : String)
    (newWid : Nat)
    (hpub : s.status = EventStatus.published)
    (hreg : getByUserAndEvent s.regs userId = none)
    (hwl : s.waitlist.find? (fun w => decide (w.userId = userId)) = none) :
    (s.registered_count < s.capacity →
      join_waitlist s userId prefStr newWid =
        Except.error (ApiErr.eventNotFull (s.capacity - s.registered_count))) ∧
    (s.capacity ≤ s.registered_count →
      join_waitlist s userId prefStr newWid =
        Except.ok
          ({ id := newWid, userId := userId, position := getNextPosition s.waitlist,
             pref := prefMap prefStr },
            { s with
              waitlist := s.waitlist ++
                [{ id := newWid, userId := userId,
                   position := getNextPosition s.waitlist, pref := prefMap prefStr }],
              waitlist_count := s.waitlist_count + 1 })) ∧
    getNextPosition s.waitlist = (maxPosition s.waitlist).getD 0 + 1 ∧
    (ApiErr.eventNotFull (s.capacity - s.registered_count)).statusCode = 400 := by
  refine ⟨?_, ?_, rfl, rfl⟩
  · intro hlt
    unfold join_waitlist
    rw [if_neg (by rw [hpub]; exact fun hc => hc rfl), if_neg (by rw [hreg]; simp),
        if_neg (by rw [hwl]; simp), if_pos hlt]
  · intro hge
    unfold join_waitlist
    rw [if_neg (by rw [hpub]; exact fun hc => hc rfl), if_neg (by rw [hreg]; simp),
        if_neg (by rw [hwl]; simp), if_neg (not_lt.mpr hge)]

/-- C9 witness: user 3 joins the waitlist of the full demo event. -/
theorem claim9_join_waitlist_witness :
    join_waitlist fullEvent 3 "email" 40 =
      Except.ok
        ({ id := 40, userId := 3, position := getNextPosition fullEvent.waitlist,
           pref := prefMap "email" },
          { fullEvent with
            waitlist := fullEvent.waitlist ++
              [{ id := 40, userId := 3, position := getNextPosition fullEvent.waitlist,
                 pref := prefMap "email" }],
            waitlist_count := fullEvent.waitlist_count + 1 }) :=
  (claim9_join_waitlist fullEvent 3 "email" 40 (by decide) (by decide)
    (by decide)).2.1 (by decide)

end Terpspark
